import Mathlib

/-!
Shallow embedding of `scripts/amazon_price_tracker.py` (the core price-resolution
pipeline): price parsing, offer scanning, price resolution, check recording,
history aggregation and digest building, together with theorems settling the
specification claims about them.

Monetary amounts are modelled as rationals; SQLite rows of the `price_checks`
table are modelled as a Lean structure; the browser-automation collaborator is
modelled as an explicit environment value supplied to each function.
-/

namespace AmazonPriceTracker

/-! ## PriceParser (`parse_price_gbp`, `PRICE_RE`) -/

/-- Numeric value of a digit run, as in `float(m.group(1))` on the integer part. -/
def digitsVal (ds : List Char) : ℕ :=
  ds.foldl (fun a c => 10 * a + (c.toNat - 48)) 0

/-- Leftmost match of `PRICE_RE = ([0-9]+(?:\.[0-9]{2})?)`: the match starts at the
first digit; the integer part is the maximal digit run there; the remainder of the
string after the run decides the optional two-digit fraction.  Returns the digit
run together with the remainder. -/
def firstMatch : List Char → Option (List Char × List Char)
  | [] => none
  | c :: rest =>
    if c.isDigit then
      some ((c :: rest).takeWhile Char.isDigit, (c :: rest).dropWhile Char.isDigit)
    else firstMatch rest

/-- The two fraction digits contributed by the optional group `(?:\.[0-9]{2})?`:
it matches exactly when the remainder after the digit run starts with `.`
followed by two digits; otherwise it contributes nothing. -/
def fracDigits : List Char → ℕ
  | '.' :: a :: b :: _ =>
    if a.isDigit && b.isDigit then 10 * (a.toNat - 48) + (b.toNat - 48) else 0
  | _ => 0

/-- Numeric value of the whole regex match: integer run plus optional two-digit
fraction, i.e. the exact rational `digits.dd`. -/
def tokenVal (ds rem : List Char) : ℚ :=
  Rat.divInt (Int.ofNat (100 * digitsVal ds + fracDigits rem)) 100

/-- Python `str.strip()`: drop leading and trailing whitespace. -/
def pyStrip (cs : List Char) : List Char :=
  ((cs.dropWhile Char.isWhitespace).reverse.dropWhile Char.isWhitespace).reverse

/-- Python `str.replace(",", "")`: remove every comma. -/
def stripCommas (cs : List Char) : List Char :=
  cs.filter (fun c => c != ',')

/-- The body of `parse_price_gbp` after the falsy-input guard: strip, remove
commas, search `PRICE_RE`, and return the numeric value of the first match, or
`None` when there is no match. -/
def parse_price_chars (cs : List Char) : Option ℚ :=
  match firstMatch (stripCommas (pyStrip cs)) with
  | none => none
  | some (ds, rem) => some (tokenVal ds rem)

/-- `parse_price_gbp(s)`: `None` on falsy input, otherwise `parse_price_chars`
on the characters. -/
def parse_price_gbp : Option String → Option ℚ
  | none => none
  | some s => if s.isEmpty then none else parse_price_chars s.data

/-! ## PriceResolver (`main`, lines 459-471) -/

/-- The priority choice of the primary tracked price: lowest NEW offer first,
then buy-box, then nothing.  Returns `(price_raw, price_gbp, price_source)`. -/
def resolvePrice (lowest_new_raw : Option String) (lowest_new_gbp : Option ℚ)
    (buybox_raw : Option String) (buybox_gbp : Option ℚ) :
    Option String × Option ℚ × String :=
  match lowest_new_gbp with
  | some v => (lowest_new_raw, some v, "lowest_new_offer")
  | none =>
    match buybox_gbp with
    | some b => (buybox_raw, some b, "buybox")
    | none => (none, none, "none")

/-! ## OfferScanner (`main`, lines 436-453)

One pagination iteration evaluates the currently loaded offers (yielding a raw
`lowestNewPrice` text or null) and then scrolls, with the scroll step reporting
whether the page is at end of content.  The environment is the sequence of
iteration observations. -/

structure ScanIter where
  lowestNewPrice : Option String
  atEnd : Bool

/-- The body of one loop iteration on the running best:
`if cand_gbp is not None and (best_gbp is None or cand_gbp < best_gbp)`. -/
def stepBest (best : Option String × Option ℚ) (cand_raw : Option String) :
    Option String × Option ℚ :=
  match parse_price_gbp cand_raw, best.2 with
  | some c, none => (cand_raw, some c)
  | some c, some b => if c < b then (cand_raw, some c) else best
  | none, _ => best

/-- The `for _ in range(4)` loop: `i` is the next iteration index, `fuel` the
remaining iterations; returns the final `(best_raw, best_gbp)` together with the
number of iterations performed. -/
def offerScanAux (env : ℕ → ScanIter) (i fuel : ℕ) (best : Option String × Option ℚ) :
    (Option String × Option ℚ) × ℕ :=
  match fuel with
  | 0 => (best, i)
  | fuel' + 1 =>
    let it := env i
    let best' := stepBest best it.lowestNewPrice
    if it.atEnd then (best', i + 1) else offerScanAux env (i + 1) fuel' best'

/-- The whole offer scan: up to 4 iterations starting from `best_raw = best_gbp = None`. -/
def offerScanRun (env : ℕ → ScanIter) : (Option String × Option ℚ) × ℕ :=
  offerScanAux env 0 4 (none, none)

/-- The running best after a given list of per-iteration candidate raw texts. -/
def runningBest (cands : List (Option String)) : Option String × Option ℚ :=
  cands.foldl stepBest (none, none)

/-- Running minimum of a list of rationals (`none` on the empty list). -/
def runMin (l : List ℚ) : Option ℚ :=
  l.foldl (fun acc x => some (match acc with | none => x | some m => min m x)) none

/-- The candidate raw texts the loop actually processed. -/
def processedCands (env : ℕ → ScanIter) (n : ℕ) : List (Option String) :=
  (List.range n).map fun i => (env i).lowestNewPrice

/-! ## CheckRecorder: `price_checks` rows (`store_check`)

`local_day` (host-time-zone calendar date of an epoch timestamp) is kept as an
explicit function parameter `localDay`, since its value depends on the host
environment; every claim holds for an arbitrary such function. -/

structure Row where
  run_id : String
  ts : ℤ
  day : String
  asin : String
  label : String
  title : Option String
  url : Option String
  price_raw : Option String
  price_gbp : Option ℚ
  buybox_price_raw : Option String
  buybox_price_gbp : Option ℚ
  lowest_new_price_raw : Option String
  lowest_new_price_gbp : Option ℚ
  price_source : Option String
  ok : Bool
  error : Option String

/-- `store_check(...)`: the row inserted into `price_checks`; `day` is always
derived from the given `ts` by `local_day`. -/
def store_check (localDay : ℤ → String) (run_id : String) (ts : ℤ) (asin label : String)
    (title url price_raw : Option String) (price_gbp : Option ℚ)
    (buybox_price_raw : Option String) (buybox_price_gbp : Option ℚ)
    (lowest_new_price_raw : Option String) (lowest_new_price_gbp : Option ℚ)
    (price_source : Option String) (ok : Bool) (error : Option String) : Row :=
  ⟨run_id, ts, localDay ts, asin, label, title, url, price_raw, price_gbp,
   buybox_price_raw, buybox_price_gbp, lowest_new_price_raw, lowest_new_price_gbp,
   price_source, ok, error⟩

/-! ## Per-product check (`main`, lines 403-546) -/

structure WatchItem where
  asin : String
  label : String

/-- Result of `openclaw_browser_eval_product`. -/
structure ProductData where
  title : Option String
  url : Option String
  buyboxPrice : Option String
  offersUrl : Option String

/-- Per-product environment: the page fetch and evaluation either raises
(`Except.error` carries the exception text) or yields the page data; the whole
offers-scan block (URL munging, navigation, evaluation, scrolling) either raises
at some point or behaves as a sequence of scan iterations. -/
structure CheckEnv where
  product : Except String ProductData
  scan : Except Unit (ℕ → ScanIter)

/-- The `(lowest_new_raw, lowest_new_gbp)` pair after the offers-scan block:
null unless the page exposed an offers link and the scan did not raise. -/
def scannedPair (scan : Except Unit (ℕ → ScanIter)) (offersUrl : Option String) :
    Option String × Option ℚ :=
  match offersUrl with
  | none => (none, none)
  | some _ =>
    match scan with
    | Except.ok iters => (offerScanRun iters).1
    | Except.error _ => (none, none)

def productUrl (asin : String) : String :=
  "https://www.amazon.co.uk/dp/" ++ asin

def cccUrl (asin : String) : String :=
  "https://uk.camelcamelcamel.com/product/" ++ asin

/-- This run's in-memory result entry for one product (the dict appended to
`results`; keys absent in one of the two paths are modelled as `none`). -/
structure ResultEntry where
  asin : String
  label : String
  title : String
  price_gbp : Option ℚ
  price_raw : Option String
  price_source : String
  url : String
  ccc : String
  buybox_gbp : Option ℚ
  lowest_new_gbp : Option ℚ
  error : Option String

/-- One product check: the success path extracts title and buy-box, optionally
scans offers, resolves the price and stores a row (`ok` iff the title is
non-empty); the exception path stores an error row.  Returns the stored row and
the result entry. -/
def checkProduct (localDay : ℤ → String) (run_id : String) (ts : ℤ)
    (item : WatchItem) (env : CheckEnv) : Row × ResultEntry :=
  match env.product with
  | Except.ok data =>
    let title := (data.title.getD "").trim
    let buybox_raw := data.buyboxPrice
    let buybox_gbp := parse_price_gbp buybox_raw
    let scanned := scannedPair env.scan data.offersUrl
    let resolved := resolvePrice scanned.1 scanned.2 buybox_raw buybox_gbp
    let row := store_check localDay run_id ts item.asin item.label
      (if title = "" then none else some title) data.url resolved.1 resolved.2.1
      buybox_raw buybox_gbp scanned.1 scanned.2
      (some resolved.2.2) (title != "")
      (if title = "" then some "missing-title" else none)
    let entry : ResultEntry :=
      ⟨item.asin, item.label, (if title = "" then item.label else title),
       resolved.2.1, resolved.1, resolved.2.2,
       data.url.getD (productUrl item.asin), cccUrl item.asin,
       buybox_gbp, scanned.2, none⟩
    (row, entry)
  | Except.error e =>
    let row := store_check localDay run_id ts item.asin item.label
      none (some (productUrl item.asin)) none none none none none none
      (some "error") false (some (e.take 300))
    let entry : ResultEntry :=
      ⟨item.asin, item.label, item.label, none, none, "error",
       productUrl item.asin, cccUrl item.asin, none, none, some (e.take 140)⟩
    (row, entry)

/-- The per-run loop: `run_id`, `ts` (and hence the day bucket) are fixed before
the loop; every product's row is stored with them. -/
def runChecks (localDay : ℤ → String) (run_id : String) (ts : ℤ)
    (items : List (WatchItem × CheckEnv)) : List Row :=
  items.map fun p => (checkProduct localDay run_id ts p.1 p.2).1

/-! ## HistoryAggregator (`daily_min_prices`, `yesterday_min`)

SQLite compares the ISO `day` TEXT column by byte order; the model uses the
lexicographic order on the day string's characters. -/

/-- Lexicographic order on character lists (SQLite TEXT comparison of the ISO
`day` column). -/
def charsLt : List Char → List Char → Bool
  | _, [] => false
  | [], _ :: _ => true
  | a :: as, b :: bs => decide (a < b) || (a == b && charsLt as bs)

/-- `day < day'` as compared by SQLite. -/
def dayLt (a b : String) : Bool :=
  charsLt a.data b.data

/-- `day >= day'`: the sort key of `ORDER BY day DESC`. -/
def dayGe (a b : String) : Bool :=
  ! dayLt a b

/-- The `WHERE asin = ? AND ok = 1 AND price_gbp IS NOT NULL` filter. -/
def qualifies (asin : String) (r : Row) : Bool :=
  r.asin == asin && r.ok && r.price_gbp.isSome

/-- `MIN(price_gbp)` over the group of qualifying rows of one day. -/
def dayMin (rows : List Row) (asin d : String) : Option ℚ :=
  runMin (((rows.filter (qualifies asin)).filter
    (fun r => r.day == d)).filterMap Row.price_gbp)

instance decRelDayGe : DecidableRel (fun a b : String => dayGe a b = true) :=
  fun a b => inferInstanceAs (Decidable (dayGe a b = true))

/-- The distinct qualifying days (`GROUP BY day`), most recent first
(`ORDER BY day DESC`). -/
def daysDesc (rows : List Row) (asin : String) : List String :=
  (((rows.filter (qualifies asin)).map Row.day).dedup).insertionSort
    (fun a b => dayGe a b = true)

/-- `daily_min_prices`: one `(day, MIN(price_gbp))` pair per qualifying day,
restricted to the `limit_days` most recent such days, descending by day. -/
def daily_min_prices (rows : List Row) (asin : String) (limit_days : ℕ) :
    List (String × ℚ) :=
  ((daysDesc rows asin).take limit_days).filterMap
    fun d => (dayMin rows asin d).map fun m => (d, m)

/-- `yesterday_min`: `MIN(price_gbp)` over ALL qualifying rows with
`day < today`.  (In the source the query is a single-row ungrouped aggregate, so
its `ORDER BY day DESC LIMIT 1` clause is a no-op.) -/
def yesterday_min (rows : List Row) (asin today : String) : Option ℚ :=
  runMin (((rows.filter (qualifies asin)).filter
    (fun r => dayLt r.day today)).filterMap Row.price_gbp)

/-- Modelled from the spec: "Prior-day minimum: the minimum `resolved_amount`
among successful rows strictly before the current day's date, most recent such
day only" — what the claim says `yesterday_min` computes. -/
def yesterday_min_specModel (rows : List Row) (asin today : String) : Option ℚ :=
  let prior := (rows.filter (qualifies asin)).filter (fun r => dayLt r.day today)
  match (prior.map Row.day).foldl
      (fun acc x =>
        some (match acc with | none => x | some m => if dayLt m x then x else m))
      none with
  | none => none
  | some d => runMin ((prior.filter (fun r => r.day == d)).filterMap Row.price_gbp)

/-- A history row for the aggregation examples: only `asin`, `day`, `price_gbp`
and `ok` matter to the queries. -/
def mkHistRow (asin day : String) (amt : Option ℚ) (okFlag : Bool) : Row :=
  ⟨"r", 0, day, asin, "lbl", some "t", none, none, amt, none, none, none, none,
   some "buybox", okFlag, none⟩

/-- The example row set of the daily-minimum claim. -/
def histRowsEx : List Row :=
  [mkHistRow "A" "2024-01-01" (some 10) true,
   mkHistRow "A" "2024-01-01" (some 8) true,
   mkHistRow "A" "2024-01-02" (some 9) true]

/-! ## DigestBuilder (`main`, lines 548-581)

Each appended digest line is modelled as a constructor carrying the data
interpolated into it. -/

inductive Line where
  | header (watch_name today : String)
  | bestDeal (label : String) (price : Option ℚ)
  | urlLine (u : String)
  | cccLine (u : String)
  | errorNoPrices
  | blank
  | currentHeader
  | currentPrice (label : String) (price : Option ℚ)
  | historyHeader (days : ℕ)
  | noHistory (label : String)
  | historyLine (label : String) (hist : List (String × ℚ))
  | dbLine (path : String)
deriving DecidableEq

instance decRelResultEntryLe :
    DecidableRel (fun a b : ResultEntry => a.price_gbp.getD 0 ≤ b.price_gbp.getD 0) :=
  fun a b => inferInstanceAs (Decidable (a.price_gbp.getD 0 ≤ b.price_gbp.getD 0))

/-- `priced = [r for r in results if r.get("price_gbp") is not None]` followed by
the stable ascending sort by amount. -/
def pricedSorted (results : List ResultEntry) : List ResultEntry :=
  (results.filter (fun r => r.price_gbp.isSome)).insertionSort
    (fun a b => a.price_gbp.getD 0 ≤ b.price_gbp.getD 0)

/-- The digest: header; best-deal block (or the explicit error line when nothing
was priced); current prices (top 10); per-product history (oldest-to-newest);
db line. -/
def buildDigest (rows : List Row) (watch_name today : String) (history_days : ℕ)
    (db : String) (results : List ResultEntry) : List Line :=
  [Line.header watch_name today]
    ++ (match (pricedSorted results).head? with
        | some b => [Line.bestDeal b.label b.price_gbp, Line.urlLine b.url,
                     Line.cccLine b.ccc]
        | none => [Line.errorNoPrices])
    ++ [Line.blank, Line.currentHeader]
    ++ ((pricedSorted results).take 10).map
        (fun r => Line.currentPrice r.label r.price_gbp)
    ++ [Line.blank, Line.historyHeader history_days]
    ++ results.map (fun r =>
        if (daily_min_prices rows r.asin history_days).isEmpty then
          Line.noHistory r.label
        else Line.historyLine r.label (daily_min_prices rows r.asin history_days).reverse)
    ++ [Line.blank, Line.dbLine db]

theorem offerScanAux_ge (env : ℕ → ScanIter) (fuel : ℕ) :
    ∀ (i : ℕ) (st : Option String × Option ℚ), i ≤ (offerScanAux env i fuel st).2 := by
  induction fuel with
  | zero => intro i st; simp [offerScanAux]
  | succ f ih =>
    intro i st
    by_cases hend : (env i).atEnd
    · simp [offerScanAux, hend]
    · simp only [offerScanAux, hend, if_neg, Bool.false_eq_true, not_false_iff]
      exact le_trans (Nat.le_succ i) (ih (i + 1) (stepBest st (env i).lowestNewPrice))

theorem stepBest_snd (st : Option String × Option ℚ) (cand : Option String) :
    (stepBest st cand).2 =
      match parse_price_gbp cand, st.2 with
      | some c, none => some c
      | some c, some b => some (min b c)
      | none, o => o := by
  unfold stepBest
  rcases hp : parse_price_gbp cand with _ | c
  · rfl
  · rcases hb : st.2 with _ | b
    · rfl
    · by_cases hlt : c < b
      · simp [hlt, min_eq_right (le_of_lt hlt)]
      · simp [hlt, min_eq_left (le_of_not_lt hlt), hb]

theorem foldl_stepBest_snd (cands : List (Option String))
    (st : Option String × Option ℚ) :
    (cands.foldl stepBest st).2 =
      (cands.filterMap parse_price_gbp).foldl
        (fun acc x => some (match acc with | none => x | some m => min m x)) st.2 := by
  induction cands generalizing st with
  | nil => rfl
  | cons c cs ih =>
    rcases hp : parse_price_gbp c with _ | v
    · have hst : stepBest st c = st := by unfold stepBest; rw [hp]
      simp [List.foldl_cons, List.filterMap_cons, hp, hst, ih]
    · have hsnd := stepBest_snd st c
      rw [hp] at hsnd
      simp only [List.foldl_cons, List.filterMap_cons, hp, ih]
      congr 1
      rw [hsnd]
      rcases st.2 with _ | b <;> rfl

theorem stepBest_never_worse (st : Option String × Option ℚ) (cand : Option String)
    (b : ℚ) (h : st.2 = some b) : ∃ c, c ≤ b ∧ (stepBest st cand).2 = some c := by
  have hsnd := stepBest_snd st cand
  rw [h] at hsnd
  rcases hp : parse_price_gbp cand with _ | v <;> rw [hp] at hsnd
  · exact ⟨b, le_refl b, hsnd⟩
  · exact ⟨min b v, min_le_left b v, hsnd⟩

theorem foldl_stepBest_never_worse (more : List (Option String))
    (st : Option String × Option ℚ) (b : ℚ) (h : st.2 = some b) :
    ∃ c, c ≤ b ∧ (more.foldl stepBest st).2 = some c := by
  induction more generalizing st b with
  | nil => exact ⟨b, le_refl b, h⟩
  | cons m ms ih =>
    obtain ⟨c, hc, hc2⟩ := stepBest_never_worse st m b h
    obtain ⟨d, hd, hd2⟩ := ih (stepBest st m) c hc2
    exact ⟨d, le_trans hd hc, hd2⟩

theorem stepBest_cases (st : Option String × Option ℚ) (cand : Option String) :
    stepBest st cand = st ∨
      ∃ v, parse_price_gbp cand = some v ∧ stepBest st cand = (cand, some v) := by
  unfold stepBest
  rcases hp : parse_price_gbp cand with _ | v
  · left; rfl
  · rcases h2 : st.2 with _ | m
    · right; exact ⟨v, rfl, rfl⟩
    · by_cases hlt : v < m
      · right
        refine ⟨v, rfl, ?_⟩
        show (if v < m then (cand, some v) else st) = (cand, some v)
        rw [if_pos hlt]
      · left
        show (if v < m then (cand, some v) else st) = st
        rw [if_neg hlt]

theorem foldl_stepBest_raw (cands : List (Option String))
    (st : Option String × Option ℚ)
    (hst : ∀ b, st.2 = some b → parse_price_gbp st.1 = some b) :
    ∀ b, (cands.foldl stepBest st).2 = some b →
      parse_price_gbp (cands.foldl stepBest st).1 = some b := by
  induction cands generalizing st with
  | nil => exact hst
  | cons c cs ih =>
    refine ih (stepBest st c) ?_
    intro b hb
    rcases stepBest_cases st c with h | ⟨v, hv, h⟩
    · rw [h] at hb ⊢
      exact hst b hb
    · rw [h] at hb ⊢
      simp only at hb
      cases hb
      exact hv

/-- C5: across the iterations of one offer scan the running lowest amount equals
the minimum of all parsed candidate amounts seen so far, it never reverts to a
higher value or to null once set (even across later iterations), the retained
raw text always parses back to the retained amount, and the loop's final best is
exactly the running best over the candidates it processed. -/
theorem C5_offerScanner_monotone :
    (∀ cands : List (Option String),
      (runningBest cands).2 = runMin (cands.filterMap parse_price_gbp)) ∧
    (∀ (cands more : List (Option String)) (b : ℚ),
      (runningBest cands).2 = some b →
      ∃ c, c ≤ b ∧ (runningBest (cands ++ more)).2 = some c) ∧
    (∀ (cands : List (Option String)) (b : ℚ),
      (runningBest cands).2 = some b →
      parse_price_gbp (runningBest cands).1 = some b) ∧
    (∀ env : ℕ → ScanIter,
      (offerScanRun env).1 = runningBest (processedCands env (offerScanRun env).2)) := by
  refine ⟨?_, ?_, ?_, ?_⟩
  · intro cands
    exact foldl_stepBest_snd cands (none, none)
  · intro cands more b hb
    unfold runningBest at hb ⊢
    rw [List.foldl_append]
    exact foldl_stepBest_never_worse more _ b hb
  · intro cands b hb
    exact foldl_stepBest_raw cands (none, none) (by intro b h; cases h) b hb
  · intro env
    have key : ∀ (fuel i : ℕ) (st : Option String × Option ℚ),
        (offerScanAux env i fuel st).1 =
          ((List.range' i ((offerScanAux env i fuel st).2 - i)).map
            fun j => (env j).lowestNewPrice).foldl stepBest st := by
      intro fuel
      induction fuel with
      | zero => intro i st; simp [offerScanAux]
      | succ f ih =>
        intro i st
        by_cases hend : (env i).atEnd
        · simp only [offerScanAux, hend, if_pos]
          have h1 : i + 1 - i = 1 := by omega
          simp [h1, List.range'_one]
        · simp only [offerScanAux, hend, if_neg, Bool.false_eq_true, not_false_iff]
          have hge : i + 1 ≤ (offerScanAux env (i + 1) f (stepBest st (env i).lowestNewPrice)).2 :=
            offerScanAux_ge env f (i + 1) (stepBest st (env i).lowestNewPrice)
          rw [ih (i + 1) (stepBest st (env i).lowestNewPrice)]
          set n := (offerScanAux env (i + 1) f (stepBest st (env i).lowestNewPrice)).2 with hn
          have hsplit : n - i = (n - (i + 1)) + 1 := by omega
          rw [hsplit]
          rw [List.range'_succ]
          simp
    have h0 := key 4 0 (none, none)
    simpa [offerScanRun, runningBest, processedCands, List.range_eq_range'] using h0
/-- Witness for C5 at concrete inputs discharging the hypotheses. -/
theorem C5_offerScanner_monotone_witness :
    (runningBest [some "£5.00"]).2 = some 5 ∧
    ∃ c, c ≤ 5 ∧ (runningBest ([some "£5.00"] ++ [none])).2 = some c :=
  ⟨by decide, C5_offerScanner_monotone.2.1 [some "£5.00"] [none] 5 (by decide)⟩

theorem offerScanAux_le (env : ℕ → ScanIter) (fuel : ℕ) :
    ∀ (i : ℕ) (st : Option String × Option ℚ), (offerScanAux env i fuel st).2 ≤ i + fuel := by
  induction fuel with
  | zero => intro i st; simp [offerScanAux]
  | succ f ih =>
    intro i st
    by_cases hend : (env i).atEnd
    · simp only [offerScanAux, hend, if_pos]
      omega
    · simp only [offerScanAux, hend, if_neg, Bool.false_eq_true, not_false_iff]
      exact le_trans (ih (i + 1) (stepBest st (env i).lowestNewPrice)) (by omega)

theorem offerScanAux_stop (env : ℕ → ScanIter) (fuel i : ℕ)
    (st : Option String × Option ℚ) (hf : fuel ≠ 0) (h : (env i).atEnd = true) :
    (offerScanAux env i fuel st).2 = i + 1 := by
  cases fuel with
  | zero => exact absurd rfl hf
  | succ f => simp [offerScanAux, h]

theorem offerScanAux_skip (env : ℕ → ScanIter) (fuel i : ℕ)
    (st : Option String × Option ℚ) (h : (env i).atEnd = false) :
    offerScanAux env i (fuel + 1) st =
      offerScanAux env (i + 1) fuel (stepBest st (env i).lowestNewPrice) := by
  simp [offerScanAux, h]

/-- C6: for every environment behaviour the offer-scan loop performs at most 4
iterations, it stops at iteration `i + 1` exactly when iteration `i` is the first
to report end-of-content, and an environment reporting end-of-content on the
second iteration yields exactly 2 iterations. -/
theorem C6_offerScanner_terminates :
    (∀ env : ℕ → ScanIter, (offerScanRun env).2 ≤ 4) ∧
    (∀ (env : ℕ → ScanIter) (i : ℕ), i < 4 → (env i).atEnd = true →
      (∀ j, j < i → (env j).atEnd = false) → (offerScanRun env).2 = i + 1) ∧
    (∀ env : ℕ → ScanIter, (env 0).atEnd = false → (env 1).atEnd = true →
      (offerScanRun env).2 = 2) := by
  have hstop2 : ∀ env : ℕ → ScanIter, (env 0).atEnd = false → (env 1).atEnd = true →
      (offerScanRun env).2 = 2 := by
    intro env h0 h1
    show (offerScanAux env 0 4 (none, none)).2 = 2
    rw [offerScanAux_skip env 3 0 (none, none) h0]
    exact offerScanAux_stop env 3 1 _ (by omega) h1
  refine ⟨?_, ?_, hstop2⟩
  · intro env
    exact offerScanAux_le env 4 0 (none, none)
  · intro env i hi hend hprev
    interval_cases i
    · exact offerScanAux_stop env 4 0 (none, none) (by omega) hend
    · exact hstop2 env (hprev 0 (by omega)) hend
    · show (offerScanAux env 0 4 (none, none)).2 = 3
      rw [offerScanAux_skip env 3 0 (none, none) (hprev 0 (by omega))]
      rw [offerScanAux_skip env 2 1 _ (hprev 1 (by omega))]
      exact offerScanAux_stop env 2 2 _ (by omega) hend
    · show (offerScanAux env 0 4 (none, none)).2 = 4
      rw [offerScanAux_skip env 3 0 (none, none) (hprev 0 (by omega))]
      rw [offerScanAux_skip env 2 1 _ (hprev 1 (by omega))]
      rw [offerScanAux_skip env 1 2 _ (hprev 2 (by omega))]
      exact offerScanAux_stop env 1 3 _ (by omega) hend

/-- Witness for C6: a fake environment reporting end-of-content on iteration 2
runs exactly 2 iterations. -/
theorem C6_offerScanner_terminates_witness :
    ((fun i : ℕ => ScanIter.mk none (decide (i = 1))) 0).atEnd = false ∧
    ((fun i : ℕ => ScanIter.mk none (decide (i = 1))) 1).atEnd = true ∧
    (offerScanRun (fun i : ℕ => ScanIter.mk none (decide (i = 1)))).2 = 2 :=
  ⟨rfl, rfl, C6_offerScanner_terminates.2.2 (fun i : ℕ => ScanIter.mk none (decide (i = 1))) rfl rfl⟩

/-- C1: PriceResolver priority policy — a non-null lowest matching-offer amount
wins with source `lowest_new_offer`; otherwise a parsed buy-box amount wins with
source `buybox`; otherwise the resolved amount is null with source `none`; in
particular on the three concrete inputs of the claim. -/
theorem C1_priceResolver_priority :
    (∀ (lr br : Option String) (bb : Option ℚ) (v : ℚ),
      resolvePrice lr (some v) br bb = (lr, some v, "lowest_new_offer")) ∧
    (∀ (lr br : Option String) (b : ℚ),
      resolvePrice lr none br (some b) = (br, some b, "buybox")) ∧
    (∀ lr br : Option String, resolvePrice lr none br none = (none, none, "none")) ∧
    resolvePrice none none (some "£10.00") (some 10) =
      (some "£10.00", some 10, "buybox") ∧
    resolvePrice (some "£9.50") (some (19 / 2)) (some "£10.00") (some 10) =
      (some "£9.50", some (19 / 2), "lowest_new_offer") ∧
    resolvePrice none none none none = (none, none, "none") :=
  ⟨fun _ _ _ _ => rfl, fun _ _ _ => rfl, fun _ _ => rfl, rfl, rfl, rfl⟩

/-- C4: PriceParser is a pure total function: null and empty input give null, a
digit-free input gives null, a first-numeric-token match gives its numeric value,
and the four concrete examples of the claim hold (totality is inherent: it is a
Lean function and never raises). -/
theorem C4_parse_price_gbp_spec :
    parse_price_gbp none = none ∧
    parse_price_gbp (some "") = none ∧
    (∀ s : String, (∀ c ∈ s.data, ¬ c.isDigit) → parse_price_gbp (some s) = none) ∧
    (∀ (s : String) (ds rem : List Char), ¬ s.isEmpty →
      firstMatch (stripCommas (pyStrip s.data)) = some (ds, rem) →
      parse_price_gbp (some s) = some (tokenVal ds rem)) ∧
    parse_price_gbp (some "£1,234.56") = some (123456 / 100) ∧
    parse_price_gbp (some "no digits") = none ∧
    parse_price_gbp (some "3") = some 3 := by
  have hfmNone : ∀ l : List Char, (∀ c ∈ l, ¬ c.isDigit) → firstMatch l = none := by
    intro l
    induction l with
    | nil => intro _; rfl
    | cons c rest ih =>
      intro h
      have hc : ¬ c.isDigit := h c (List.mem_cons_self c rest)
      simp only [firstMatch]
      rw [if_neg hc]
      exact ih fun d hd => h d (List.mem_cons_of_mem c hd)
  refine ⟨rfl, rfl, ?_, ?_, ?_, by decide, by decide⟩
  · intro s hnd
    by_cases he : s.isEmpty
    · simp [parse_price_gbp, he]
    · have hsub : ∀ c ∈ stripCommas (pyStrip s.data), ¬ c.isDigit := by
        intro c hc
        apply hnd
        have h1 : c ∈ pyStrip s.data := List.mem_of_mem_filter hc
        have h2 : (pyStrip s.data).Sublist s.data := by
          have ha : ((s.data.dropWhile Char.isWhitespace).reverse.dropWhile
              Char.isWhitespace).Sublist (s.data.dropWhile Char.isWhitespace).reverse :=
            List.dropWhile_sublist _
          have hb := ha.reverse
          rw [List.reverse_reverse] at hb
          exact List.Sublist.trans hb (List.dropWhile_sublist _)
        exact h2.subset h1
      simp [parse_price_gbp, parse_price_chars, he, hfmNone _ hsub]
  · intro s ds rem he hm
    simp [parse_price_gbp, parse_price_chars, he, hm]
  · have h : parse_price_gbp (some "£1,234.56") = some (Rat.divInt 123456 100) := by decide
    rw [h, Rat.divInt_eq_div]
    norm_num

/-- Witness for C4 at concrete inputs discharging the two hypotheses. -/
theorem C4_parse_price_gbp_spec_witness :
    parse_price_gbp (some "xyz") = none ∧ parse_price_gbp (some "£7.25") = some (tokenVal ['7'] ['.', '2', '5']) :=
  ⟨C4_parse_price_gbp_spec.2.2.1 "xyz" (by decide),
   C4_parse_price_gbp_spec.2.2.2.1 "£7.25" ['7'] ['.', '2', '5'] (by decide) (by rfl)⟩

theorem resolvePrice_facts (lr : Option String) (lg : Option ℚ)
    (br : Option String) (bg : Option ℚ) :
    ((resolvePrice lr lg br bg).2.2 = "none" ↔ (resolvePrice lr lg br bg).2.1 = none) ∧
    (resolvePrice lr lg br bg).2.2 ≠ "error" := by
  rcases lg with _ | v
  · rcases bg with _ | b
    · exact ⟨⟨fun _ => rfl, fun _ => rfl⟩,
             show ("none" : String) ≠ "error" by decide⟩
    · exact ⟨⟨fun h => absurd (show ("buybox" : String) = "none" from h) (by decide),
              fun h => absurd (show (some b : Option ℚ) = none from h) (by simp)⟩,
             show ("buybox" : String) ≠ "error" by decide⟩
  · exact ⟨⟨fun h => absurd (show ("lowest_new_offer" : String) = "none" from h) (by decide),
            fun h => absurd (show (some v : Option ℚ) = none from h) (by simp)⟩,
           show ("lowest_new_offer" : String) ≠ "error" by decide⟩

/-- C2: `yesterday_min` is an ungrouped aggregate, so its `ORDER BY day DESC
LIMIT 1` is a no-op and it returns the minimum over ALL prior days, not the
minimum of the most recent prior day only as the claim states.  On rows
(day 2024-01-01, £5.00) and (day 2024-01-02, £9.00) with today 2024-01-03 the
code returns 5 while the spec-modelled query returns 9. -/
theorem C2_yesterday_min_divergence :
    yesterday_min [mkHistRow "A" "2024-01-01" (some 5) true,
        mkHistRow "A" "2024-01-02" (some 9) true] "A" "2024-01-03" = some 5 ∧
    yesterday_min_specModel [mkHistRow "A" "2024-01-01" (some 5) true,
        mkHistRow "A" "2024-01-02" (some 9) true] "A" "2024-01-03" = some 9 ∧
    (5 : ℚ) ≠ 9 :=
  ⟨by decide, by decide, by decide⟩

/-- C3 counterexample: a product check whose page fetch raises stores a row with
null resolved amount but source `error`, so `resolved_source = none` iff
`resolved_amount is null` fails on persisted rows. -/
theorem C3_row_invariants_counterexample :
    ¬ (((checkProduct (fun _ => "2024-01-01") "r" 0 ⟨"A", "lbl"⟩
          ⟨Except.error "boom", Except.error ()⟩).1.price_source = some "none") ↔
       ((checkProduct (fun _ => "2024-01-01") "r" 0 ⟨"A", "lbl"⟩
          ⟨Except.error "boom", Except.error ()⟩).1.price_gbp = none)) := by
  decide

/-- C3 (amended): for every stored row, source `none` implies a null amount, a
null amount implies source `none` or `error`, the iff holds exactly for rows
stored by the non-exception path, and the success flag is true iff a non-empty
product title was obtained, independent of price resolution. -/
theorem C3_row_invariants_amended :
    ∀ (localDay : ℤ → String) (rid : String) (ts : ℤ) (item : WatchItem)
      (env : CheckEnv),
      ((checkProduct localDay rid ts item env).1.price_source = some "none" →
        (checkProduct localDay rid ts item env).1.price_gbp = none) ∧
      ((checkProduct localDay rid ts item env).1.price_gbp = none →
        (checkProduct localDay rid ts item env).1.price_source = some "none" ∨
        (checkProduct localDay rid ts item env).1.price_source = some "error") ∧
      (∀ d : ProductData, env.product = Except.ok d →
        ((checkProduct localDay rid ts item env).1.price_source = some "none" ↔
          (checkProduct localDay rid ts item env).1.price_gbp = none)) ∧
      ((checkProduct localDay rid ts item env).1.ok = true ↔
        ∃ t, (checkProduct localDay rid ts item env).1.title = some t ∧ t ≠ "") := by
  intro localDay rid ts item env
  obtain ⟨prod, scan⟩ := env
  cases prod with
  | error e =>
    refine ⟨fun _ => rfl, fun _ => Or.inr rfl, ?_, ?_⟩
    · intro d hd
      exact Except.noConfusion hd
    · constructor
      · intro h
        exact Bool.noConfusion h
      · rintro ⟨t, hts, _⟩
        exact Option.noConfusion hts
  | ok data =>
    have hres := resolvePrice_facts
      (scannedPair scan data.offersUrl).1 (scannedPair scan data.offersUrl).2
      data.buyboxPrice (parse_price_gbp data.buyboxPrice)
    refine ⟨?_, ?_, ?_, ?_⟩
    · intro h
      exact hres.1.mp (Option.some.inj h)
    · intro h
      exact Or.inl (congrArg some (hres.1.mpr h))
    · intro d _
      exact ⟨fun h => hres.1.mp (Option.some.inj h),
             fun h => congrArg some (hres.1.mpr h)⟩
    · by_cases ht : (data.title.getD "").trim = ""
      · constructor
        · intro h
          have h' : ((data.title.getD "").trim != "") = true := h
          rw [ht] at h'
          exact Bool.noConfusion h'
        · rintro ⟨t, hts, _⟩
          have hts' : (if (data.title.getD "").trim = "" then none
              else some ((data.title.getD "").trim)) = some t := hts
          rw [if_pos ht] at hts'
          exact Option.noConfusion hts'
      · constructor
        · intro _
          refine ⟨(data.title.getD "").trim, ?_, ht⟩
          show (if (data.title.getD "").trim = "" then none
            else some ((data.title.getD "").trim)) = some ((data.title.getD "").trim)
          rw [if_neg ht]
        · intro _
          show ((data.title.getD "").trim != "") = true
          exact bne_iff_ne.mpr ht

/-- Witness for C3 (amended) at a concrete non-exception product check. -/
theorem C3_row_invariants_amended_witness :
    ((⟨Except.ok ⟨some "Widget", none, none, none⟩, Except.error ()⟩ : CheckEnv).product =
      Except.ok ⟨some "Widget", none, none, none⟩) ∧
    ((checkProduct (fun _ => "2024-01-02") "r" 0 ⟨"A", "lbl"⟩
        ⟨Except.ok ⟨some "Widget", none, none, none⟩, Except.error ()⟩).1.price_source =
          some "none" ↔
      (checkProduct (fun _ => "2024-01-02") "r" 0 ⟨"A", "lbl"⟩
        ⟨Except.ok ⟨some "Widget", none, none, none⟩, Except.error ()⟩).1.price_gbp = none) :=
  ⟨rfl, (C3_row_invariants_amended (fun _ => "2024-01-02") "r" 0 ⟨"A", "lbl"⟩
      ⟨Except.ok ⟨some "Widget", none, none, none⟩, Except.error ()⟩).2.2.1
      ⟨some "Widget", none, none, none⟩ rfl⟩

/-- C9: the offers scan is attempted only when the page exposed an offers link
(the check's outcome is independent of the scan environment otherwise), and a
scan failure leaves the lowest-offer fields null, keeps the buy-box fields
intact, resolves buybox-or-none, and never records the product check as an
error (source stays non-`error` and the error column can only be the
missing-title marker). -/
theorem C9_offer_scan_degradation :
    ∀ (localDay : ℤ → String) (rid : String) (ts : ℤ) (item : WatchItem)
      (d : ProductData) (scanA scanB : Except Unit (ℕ → ScanIter)),
      (d.offersUrl = none →
        checkProduct localDay rid ts item ⟨Except.ok d, scanA⟩ =
          checkProduct localDay rid ts item ⟨Except.ok d, scanB⟩) ∧
      ((checkProduct localDay rid ts item
          ⟨Except.ok d, Except.error ()⟩).1.lowest_new_price_raw = none ∧
       (checkProduct localDay rid ts item
          ⟨Except.ok d, Except.error ()⟩).1.lowest_new_price_gbp = none ∧
       (checkProduct localDay rid ts item
          ⟨Except.ok d, Except.error ()⟩).1.buybox_price_raw = d.buyboxPrice ∧
       (checkProduct localDay rid ts item
          ⟨Except.ok d, Except.error ()⟩).1.buybox_price_gbp =
         parse_price_gbp d.buyboxPrice ∧
       (checkProduct localDay rid ts item
          ⟨Except.ok d, Except.error ()⟩).1.price_gbp =
         (resolvePrice none none d.buyboxPrice (parse_price_gbp d.buyboxPrice)).2.1 ∧
       (checkProduct localDay rid ts item
          ⟨Except.ok d, Except.error ()⟩).1.price_source =
         some (resolvePrice none none d.buyboxPrice (parse_price_gbp d.buyboxPrice)).2.2 ∧
       (checkProduct localDay rid ts item
          ⟨Except.ok d, Except.error ()⟩).1.price_source ≠ some "error" ∧
       ((checkProduct localDay rid ts item
          ⟨Except.ok d, Except.error ()⟩).1.error = none ∨
        (checkProduct localDay rid ts item
          ⟨Except.ok d, Except.error ()⟩).1.error = some "missing-title")) := by
  intro localDay rid ts item d scanA scanB
  obtain ⟨dtitle, durl, dbb, doff⟩ := d
  constructor
  · intro hoff
    cases hoff
    rfl
  · rcases doff with _ | u
    · refine ⟨rfl, rfl, rfl, rfl, rfl, rfl, ?_, ?_⟩
      · intro h
        exact (resolvePrice_facts none none dbb (parse_price_gbp dbb)).2
          (Option.some.inj h)
      · by_cases ht : (dtitle.getD "").trim = ""
        · right
          show (if (dtitle.getD "").trim = "" then some "missing-title" else none) =
            some "missing-title"
          rw [if_pos ht]
        · left
          show (if (dtitle.getD "").trim = "" then some "missing-title" else none) = none
          rw [if_neg ht]
    · refine ⟨rfl, rfl, rfl, rfl, rfl, rfl, ?_, ?_⟩
      · intro h
        exact (resolvePrice_facts none none dbb (parse_price_gbp dbb)).2
          (Option.some.inj h)
      · by_cases ht : (dtitle.getD "").trim = ""
        · right
          show (if (dtitle.getD "").trim = "" then some "missing-title" else none) =
            some "missing-title"
          rw [if_pos ht]
        · left
          show (if (dtitle.getD "").trim = "" then some "missing-title" else none) = none
          rw [if_neg ht]

/-- Witness for C9: a page with no offers link gives the same check under a
failing and under a succeeding scan environment. -/
theorem C9_offer_scan_degradation_witness :
    (ProductData.offersUrl ⟨some "T", none, some "£4.00", none⟩ = none) ∧
    checkProduct (fun _ => "2024-01-02") "r" 0 ⟨"A", "lbl"⟩
        ⟨Except.ok ⟨some "T", none, some "£4.00", none⟩, Except.error ()⟩ =
      checkProduct (fun _ => "2024-01-02") "r" 0 ⟨"A", "lbl"⟩
        ⟨Except.ok ⟨some "T", none, some "£4.00", none⟩,
         Except.ok (fun _ => ⟨none, true⟩)⟩ :=
  ⟨rfl, (C9_offer_scan_degradation (fun _ => "2024-01-02") "r" 0 ⟨"A", "lbl"⟩
      ⟨some "T", none, some "£4.00", none⟩ (Except.error ())
      (Except.ok (fun _ => ⟨none, true⟩))).1 rfl⟩

theorem checkProduct_run_fields (localDay : ℤ → String) (rid : String) (ts : ℤ)
    (item : WatchItem) (env : CheckEnv) :
    (checkProduct localDay rid ts item env).1.run_id = rid ∧
    (checkProduct localDay rid ts item env).1.ts = ts ∧
    (checkProduct localDay rid ts item env).1.day = localDay ts := by
  obtain ⟨prod, scan⟩ := env
  cases prod with
  | error e => exact ⟨rfl, rfl, rfl⟩
  | ok data => exact ⟨rfl, rfl, rfl⟩

/-- C10: the run timestamp is captured once; every row stored during the run —
success or failure — carries that timestamp and its derived day bucket, so all
rows of one run share the same day (the one derived from the run-start
timestamp). -/
theorem C10_run_timestamp_day :
    ∀ (localDay : ℤ → String) (rid : String) (ts : ℤ)
      (items : List (WatchItem × CheckEnv)),
      (∀ row ∈ runChecks localDay rid ts items,
        row.run_id = rid ∧ row.ts = ts ∧ row.day = localDay ts) ∧
      (∀ r1 ∈ runChecks localDay rid ts items,
        ∀ r2 ∈ runChecks localDay rid ts items, r1.day = r2.day) := by
  intro localDay rid ts items
  have hmem : ∀ row ∈ runChecks localDay rid ts items,
      row.run_id = rid ∧ row.ts = ts ∧ row.day = localDay ts := by
    intro row hrow
    unfold runChecks at hrow
    obtain ⟨p, _, hrow⟩ := List.mem_map.mp hrow
    subst hrow
    exact checkProduct_run_fields localDay rid ts p.1 p.2
  refine ⟨hmem, ?_⟩
  intro r1 h1 r2 h2
  rw [(hmem r1 h1).2.2, (hmem r2 h2).2.2]

/-- Witness for C10 at a one-item run. -/
theorem C10_run_timestamp_day_witness :
    ((checkProduct (fun _ => "2024-01-02") "r" 7 ⟨"A", "lbl"⟩
        ⟨Except.error "x", Except.error ()⟩).1 ∈
      runChecks (fun _ => "2024-01-02") "r" 7
        [(⟨"A", "lbl"⟩, ⟨Except.error "x", Except.error ()⟩)]) ∧
    ((checkProduct (fun _ => "2024-01-02") "r" 7 ⟨"A", "lbl"⟩
        ⟨Except.error "x", Except.error ()⟩).1.run_id = "r" ∧
     (checkProduct (fun _ => "2024-01-02") "r" 7 ⟨"A", "lbl"⟩
        ⟨Except.error "x", Except.error ()⟩).1.ts = 7 ∧
     (checkProduct (fun _ => "2024-01-02") "r" 7 ⟨"A", "lbl"⟩
        ⟨Except.error "x", Except.error ()⟩).1.day = "2024-01-02") :=
  ⟨List.mem_singleton.mpr rfl,
   (C10_run_timestamp_day (fun _ => "2024-01-02") "r" 7
      [(⟨"A", "lbl"⟩, ⟨Except.error "x", Except.error ()⟩)]).1 _
      (List.mem_singleton.mpr rfl)⟩

theorem charsLt_irrefl : ∀ as : List Char, charsLt as as = false := by
  intro as
  induction as with
  | nil => rfl
  | cons a as ih =>
    show (decide (a < a) || (a == a && charsLt as as)) = false
    rw [ih, decide_eq_false (lt_irrefl a)]
    simp

theorem charsLt_asymm : ∀ as bs : List Char,
    charsLt as bs = true → charsLt bs as = false := by
  intro as
  induction as with
  | nil =>
    intro bs h
    cases bs with
    | nil => exact Bool.noConfusion h
    | cons b bs => rfl
  | cons a as ih =>
    intro bs h
    cases bs with
    | nil => exact Bool.noConfusion h
    | cons b bs =>
      have h' : (decide (a < b) || (a == b && charsLt as bs)) = true := h
      show (decide (b < a) || (b == a && charsLt bs as)) = false
      rcases Bool.or_eq_true_iff.mp h' with hab | hand
      · have hlt : a < b := of_decide_eq_true hab
        rw [decide_eq_false (lt_asymm hlt),
          beq_eq_false_iff_ne.mpr (ne_of_lt hlt).symm]
        rfl
      · obtain ⟨heq, hlt⟩ := Bool.and_eq_true_iff.mp hand
        have hab' : a = b := beq_iff_eq.mp heq
        subst hab'
        rw [decide_eq_false (lt_irrefl a), ih bs hlt]
        simp

theorem charsLt_connex : ∀ as bs : List Char,
    charsLt as bs = false → charsLt bs as = false → as = bs := by
  intro as
  induction as with
  | nil =>
    intro bs h1 _
    cases bs with
    | nil => rfl
    | cons b bs => exact Bool.noConfusion h1
  | cons a as ih =>
    intro bs h1 h2
    cases bs with
    | nil => exact Bool.noConfusion h2
    | cons b bs =>
      have h1' : (decide (a < b) || (a == b && charsLt as bs)) = false := h1
      have h2' : (decide (b < a) || (b == a && charsLt bs as)) = false := h2
      rcases Bool.or_eq_false_iff.mp h1' with ⟨hab, hand1⟩
      rcases Bool.or_eq_false_iff.mp h2' with ⟨hba, hand2⟩
      have haeqb : a = b := by
        rcases lt_trichotomy a b with h | h | h
        · exact absurd h (of_decide_eq_false hab)
        · exact h
        · exact absurd h (of_decide_eq_false hba)
      subst haeqb
      have e1 : charsLt as bs = false := by simpa using hand1
      have e2 : charsLt bs as = false := by simpa using hand2
      rw [ih bs e1 e2]

theorem charsLt_trans : ∀ as bs cs : List Char,
    charsLt as bs = true → charsLt bs cs = true → charsLt as cs = true := by
  intro as
  induction as with
  | nil =>
    intro bs cs h1 h2
    cases bs with
    | nil => exact Bool.noConfusion h1
    | cons b bs =>
      cases cs with
      | nil => exact Bool.noConfusion h2
      | cons c cs => rfl
  | cons a as ih =>
    intro bs cs h1 h2
    cases bs with
    | nil => exact Bool.noConfusion h1
    | cons b bs =>
      cases cs with
      | nil => exact Bool.noConfusion h2
      | cons c cs =>
        have h1' : (decide (a < b) || (a == b && charsLt as bs)) = true := h1
        have h2' : (decide (b < c) || (b == c && charsLt bs cs)) = true := h2
        show (decide (a < c) || (a == c && charsLt as cs)) = true
        rcases Bool.or_eq_true_iff.mp h1' with hab | hand1
        · have hlt1 : a < b := of_decide_eq_true hab
          rcases Bool.or_eq_true_iff.mp h2' with hbc | hand2
          · have hlt2 : b < c := of_decide_eq_true hbc
            rw [decide_eq_true (lt_trans hlt1 hlt2)]
            rfl
          · obtain ⟨heq, _⟩ := Bool.and_eq_true_iff.mp hand2
            have hbc' : b = c := beq_iff_eq.mp heq
            rw [decide_eq_true (hbc' ▸ hlt1)]
            rfl
        · obtain ⟨heq, htail1⟩ := Bool.and_eq_true_iff.mp hand1
          have hab' : a = b := beq_iff_eq.mp heq
          subst hab'
          rcases Bool.or_eq_true_iff.mp h2' with hbc | hand2
          · rw [hbc]
            rfl
          · obtain ⟨heq2, htail2⟩ := Bool.and_eq_true_iff.mp hand2
            rw [heq2, ih bs cs htail1 htail2]
            simp

theorem stringDataEq : ∀ a b : String, a.data = b.data → a = b := by
  intro a b h
  rcases a with ⟨da⟩
  rcases b with ⟨db⟩
  have h' : da = db := h
  rw [h']

instance dayGeIsTotal : IsTotal String (fun a b => dayGe a b = true) := by
  constructor
  intro a b
  unfold dayGe dayLt
  cases h : charsLt a.data b.data
  · left
    rfl
  · right
    rw [charsLt_asymm _ _ h]
    rfl

instance dayGeIsTrans : IsTrans String (fun a b => dayGe a b = true) := by
  constructor
  intro a b c hab hbc
  have hab' : charsLt a.data b.data = false := by
    have h : (! charsLt a.data b.data) = true := hab
    simpa using h
  have hbc' : charsLt b.data c.data = false := by
    have h : (! charsLt b.data c.data) = true := hbc
    simpa using h
  have hac : charsLt a.data c.data = false := by
    cases h : charsLt a.data c.data
    · rfl
    · exfalso
      cases hcb : charsLt c.data b.data
      · have hdata : b.data = c.data := charsLt_connex _ _ hbc' hcb
        rw [← hdata] at h
        rw [hab'] at h
        exact Bool.noConfusion h
      · have h3 := charsLt_trans _ _ _ h hcb
        rw [hab'] at h3
        exact Bool.noConfusion h3
  show (! charsLt a.data c.data) = true
  rw [hac]
  rfl

theorem runMin_from (l : List ℚ) : ∀ m : ℚ,
    l.foldl (fun acc x => some (match acc with | none => x | some m' => min m' x))
        (some m) = some (l.foldl min m) := by
  induction l with
  | nil => intro m; rfl
  | cons x xs ih => intro m; exact ih (min m x)

theorem runMin_cons (x : ℚ) (xs : List ℚ) : runMin (x :: xs) = some (xs.foldl min x) :=
  runMin_from xs x

theorem foldl_min_le_init (xs : List ℚ) : ∀ m : ℚ, xs.foldl min m ≤ m := by
  induction xs with
  | nil => intro m; exact le_refl m
  | cons x xs ih => intro m; exact le_trans (ih (min m x)) (min_le_left m x)

theorem foldl_min_le_mem (xs : List ℚ) : ∀ (m x : ℚ), x ∈ xs → xs.foldl min m ≤ x := by
  induction xs with
  | nil => intro m x hx; cases hx
  | cons y ys ih =>
    intro m x hx
    rcases List.mem_cons.mp hx with h | h
    · subst h
      exact le_trans (foldl_min_le_init ys (min m x)) (min_le_right m x)
    · exact ih (min m y) x h

theorem foldl_min_mem (xs : List ℚ) : ∀ m : ℚ,
    xs.foldl min m = m ∨ xs.foldl min m ∈ xs := by
  induction xs with
  | nil => intro m; exact Or.inl rfl
  | cons y ys ih =>
    intro m
    rcases ih (min m y) with h | h
    · rcases le_total m y with hle | hle
      · left
        rw [List.foldl_cons, h, min_eq_left hle]
      · right
        rw [List.foldl_cons, h, min_eq_right hle]
        exact List.mem_cons_self y ys
    · right
      rw [List.foldl_cons]
      exact List.mem_cons_of_mem y h

theorem runMin_spec (l : List ℚ) (m : ℚ) (h : runMin l = some m) :
    m ∈ l ∧ ∀ x ∈ l, m ≤ x := by
  cases l with
  | nil => exact Option.noConfusion h
  | cons x xs =>
    rw [runMin_cons] at h
    have hm := Option.some.inj h
    subst hm
    constructor
    · rcases foldl_min_mem xs x with h' | h'
      · rw [h']
        exact List.mem_cons_self x xs
      · exact List.mem_cons_of_mem x h'
    · intro y hy
      rcases List.mem_cons.mp hy with h' | h'
      · subst h'
        exact foldl_min_le_init xs y
      · exact foldl_min_le_mem xs x y h'

theorem runMin_ne_nil (l : List ℚ) (h : l ≠ []) : ∃ m, runMin l = some m := by
  cases l with
  | nil => exact absurd rfl h
  | cons x xs => exact ⟨xs.foldl min x, runMin_cons x xs⟩

theorem daysDesc_mem (rows : List Row) (asin d : String) :
    d ∈ daysDesc rows asin ↔ ∃ r ∈ rows, qualifies asin r = true ∧ r.day = d := by
  unfold daysDesc
  rw [List.mem_insertionSort, List.mem_dedup, List.mem_map]
  constructor
  · rintro ⟨r, hr, hd⟩
    exact ⟨r, (List.mem_filter.mp hr).1, (List.mem_filter.mp hr).2, hd⟩
  · rintro ⟨r, hr, hq, hd⟩
    exact ⟨r, List.mem_filter.mpr ⟨hr, hq⟩, hd⟩

theorem daysDesc_sorted (rows : List Row) (asin : String) :
    (daysDesc rows asin).Pairwise (fun a b => dayLt b a = true) := by
  have hs : List.Sorted (fun a b => dayGe a b = true) (daysDesc rows asin) :=
    List.sorted_insertionSort _ _
  have hn : (daysDesc rows asin).Nodup :=
    (List.perm_insertionSort _ _).nodup_iff.mpr
      (List.nodup_dedup ((rows.filter (qualifies asin)).map Row.day))
  refine (hs.and hn).imp ?_
  rintro a b ⟨hge, hne⟩
  have hge' : charsLt a.data b.data = false := by
    have h : (! charsLt a.data b.data) = true := hge
    simpa using h
  cases h : charsLt b.data a.data
  · exact absurd (stringDataEq b a (charsLt_connex _ _ h hge')).symm hne
  · exact h

theorem dayMin_isSome (rows : List Row) (asin d : String)
    (h : ∃ r ∈ rows, qualifies asin r = true ∧ r.day = d) :
    ∃ m, dayMin rows asin d = some m := by
  obtain ⟨r, hr, hq, hd⟩ := h
  apply runMin_ne_nil
  have hsome : r.price_gbp.isSome = true := by
    have h' : (r.asin == asin && r.ok && r.price_gbp.isSome) = true := hq
    simp [Bool.and_eq_true] at h'
    exact h'.2
  obtain ⟨v, hv⟩ := Option.isSome_iff_exists.mp hsome
  intro hnil
  have hvmem : v ∈ ((rows.filter (qualifies asin)).filter
      (fun r' => r'.day == d)).filterMap Row.price_gbp := by
    apply List.mem_filterMap.mpr
    refine ⟨r, List.mem_filter.mpr ⟨List.mem_filter.mpr ⟨hr, hq⟩, ?_⟩, hv⟩
    exact beq_iff_eq.mpr hd
  rw [hnil] at hvmem
  cases hvmem

theorem daily_min_mem (rows : List Row) (asin : String) (n : ℕ) (d : String) (a : ℚ) :
    (d, a) ∈ daily_min_prices rows asin n ↔
      d ∈ (daysDesc rows asin).take n ∧ dayMin rows asin d = some a := by
  unfold daily_min_prices
  rw [List.mem_filterMap]
  constructor
  · rintro ⟨x, hx, hfx⟩
    rcases hm : dayMin rows asin x with _ | m
    · rw [hm] at hfx
      exact Option.noConfusion hfx
    · rw [hm] at hfx
      have hpair := Option.some.inj hfx
      rw [Prod.ext_iff] at hpair
      obtain ⟨h1, h2⟩ := hpair
      subst h1
      subst h2
      exact ⟨hx, hm⟩
  · rintro ⟨hd, hm⟩
    refine ⟨d, hd, ?_⟩
    rw [hm]
    rfl

theorem take_crowded : ∀ (l : List String) (n : ℕ) (d : String),
    l.Pairwise (fun a b => dayLt b a = true) → d ∈ l → d ∉ l.take n →
    (l.take n).length = n ∧ ∀ x ∈ l.take n, dayLt d x = true := by
  intro l
  induction l with
  | nil =>
    intro n d _ hd _
    cases hd
  | cons a l ih =>
    intro n d hp hd hnot
    cases n with
    | zero => exact ⟨rfl, fun x hx => absurd hx (List.not_mem_nil x)⟩
    | succ n =>
      rw [List.take_succ_cons] at hnot ⊢
      have hda : d ≠ a := fun h => hnot (h ▸ List.mem_cons_self a (l.take n))
      have hdl : d ∈ l := by
        rcases List.mem_cons.mp hd with h | h
        · exact absurd h hda
        · exact h
      have hdnt : d ∉ l.take n := fun h => hnot (List.mem_cons_of_mem a h)
      obtain ⟨hlen, hall⟩ := ih n d hp.of_cons hdl hdnt
      refine ⟨by rw [List.length_cons, hlen], ?_⟩
      intro x hx
      rcases List.mem_cons.mp hx with h | h
      · subst h
        exact List.rel_of_pairwise_cons hp hdl
      · exact hall x h

theorem length_filterMap_of_total {α β : Type} (f : α → Option β) :
    ∀ l : List α, (∀ x ∈ l, (f x).isSome = true) →
      (l.filterMap f).length = l.length := by
  intro l
  induction l with
  | nil => intro _; rfl
  | cons x xs ih =>
    intro h
    rcases hfx : f x with _ | y
    · have h' := h x (List.mem_cons_self x xs)
      rw [hfx] at h'
      exact Bool.noConfusion h'
    · simp [List.filterMap_cons, hfx,
        ih (fun z hz => h z (List.mem_cons_of_mem x hz))]

theorem daily_min_prices_congr (rows rows' : List Row) (asin : String)
    (h : rows.filter (qualifies asin) = rows'.filter (qualifies asin)) (n : ℕ) :
    daily_min_prices rows asin n = daily_min_prices rows' asin n := by
  unfold daily_min_prices daysDesc dayMin
  rw [h]

/-- C7: per-product daily minimum — the concrete example; at most N pairs; pairs
strictly descending by day; failed or amount-less rows never contribute; every
returned pair is the minimum qualifying amount of a day that has a qualifying
row; and every qualifying day either appears or is crowded out by N more recent
qualifying days. -/
theorem C7_daily_min_prices_spec :
    daily_min_prices histRowsEx "A" 7 = [("2024-01-02", 9), ("2024-01-01", 8)] ∧
    (∀ (rows : List Row) (asin : String) (n : ℕ),
      (daily_min_prices rows asin n).length ≤ n) ∧
    (∀ (rows : List Row) (asin : String) (n : ℕ),
      (daily_min_prices rows asin n).Pairwise (fun p q => dayLt q.1 p.1 = true)) ∧
    (∀ (rows : List Row) (asin : String) (n : ℕ),
      daily_min_prices rows asin n =
        daily_min_prices (rows.filter fun r => r.ok && r.price_gbp.isSome) asin n) ∧
    (∀ (rows : List Row) (asin : String) (n : ℕ) (d : String) (a : ℚ),
      (d, a) ∈ daily_min_prices rows asin n →
        (∃ r ∈ rows, qualifies asin r = true ∧ r.day = d ∧ r.price_gbp = some a) ∧
        (∀ r ∈ rows, qualifies asin r = true → r.day = d →
          ∀ v, r.price_gbp = some v → a ≤ v)) ∧
    (∀ (rows : List Row) (asin : String) (n : ℕ) (d : String),
      (∃ r ∈ rows, qualifies asin r = true ∧ r.day = d) →
        (∃ a, (d, a) ∈ daily_min_prices rows asin n) ∨
        ((daily_min_prices rows asin n).length = n ∧
          ∀ p ∈ daily_min_prices rows asin n, dayLt d p.1 = true)) := by
  refine ⟨by decide, ?_, ?_, ?_, ?_, ?_⟩
  · intro rows asin n
    calc (daily_min_prices rows asin n).length
        ≤ ((daysDesc rows asin).take n).length := List.length_filterMap_le _ _
      _ ≤ n := List.length_take_le n _
  · intro rows asin n
    have hp : ((daysDesc rows asin).take n).Pairwise (fun a b => dayLt b a = true) :=
      (daysDesc_sorted rows asin).sublist (List.take_sublist n _)
    refine List.Pairwise.filterMap _ ?_ hp
    intro x y hxy p hp' q hq'
    rcases hmx : dayMin rows asin x with _ | mx
    · rw [hmx] at hp'
      exact absurd hp' (by simp)
    · rcases hmy : dayMin rows asin y with _ | my
      · rw [hmy] at hq'
        exact absurd hq' (by simp)
      · rw [hmx] at hp'
        rw [hmy] at hq'
        have hp2 : (x, mx) = p := Option.some.inj hp'
        have hq2 : (y, my) = q := Option.some.inj hq'
        rw [← hp2, ← hq2]
        exact hxy
  · intro rows asin n
    apply daily_min_prices_congr
    rw [List.filter_filter]
    apply List.filter_congr
    intro r _
    have hb : ∀ x y z : Bool, (x && y && z) = ((x && y && z) && (y && z)) := by decide
    show qualifies asin r = (qualifies asin r && (r.ok && r.price_gbp.isSome))
    unfold qualifies
    exact hb (r.asin == asin) r.ok r.price_gbp.isSome
  · intro rows asin n d a hmem
    obtain ⟨_, hm⟩ := (daily_min_mem rows asin n d a).mp hmem
    obtain ⟨hin, hle⟩ := runMin_spec _ _ hm
    constructor
    · obtain ⟨r, hr, hv⟩ := List.mem_filterMap.mp hin
      obtain ⟨hr1, hr2⟩ := List.mem_filter.mp hr
      obtain ⟨hr0, hrq⟩ := List.mem_filter.mp hr1
      exact ⟨r, hr0, hrq, beq_iff_eq.mp hr2, hv⟩
    · intro r hr hq hd v hv
      apply hle
      apply List.mem_filterMap.mpr
      refine ⟨r, List.mem_filter.mpr ⟨List.mem_filter.mpr ⟨hr, hq⟩, ?_⟩, hv⟩
      exact beq_iff_eq.mpr hd
  · intro rows asin n d hq
    have hdmem : d ∈ daysDesc rows asin := (daysDesc_mem rows asin d).mpr hq
    by_cases htake : d ∈ (daysDesc rows asin).take n
    · left
      obtain ⟨m, hm⟩ := dayMin_isSome rows asin d hq
      exact ⟨m, (daily_min_mem rows asin n d m).mpr ⟨htake, hm⟩⟩
    · right
      obtain ⟨hlen, hall⟩ :=
        take_crowded (daysDesc rows asin) n d (daysDesc_sorted rows asin) hdmem htake
      have htotal : ∀ x ∈ (daysDesc rows asin).take n,
          ((fun d' => (dayMin rows asin d').map fun m => (d', m)) x).isSome = true := by
        intro x hx
        have hxmem : x ∈ daysDesc rows asin := List.take_subset n _ hx
        obtain ⟨m, hm⟩ := dayMin_isSome rows asin x
          ((daysDesc_mem rows asin x).mp hxmem)
        show (Option.map (fun m' => (x, m')) (dayMin rows asin x)).isSome = true
        rw [hm]
        rfl
      constructor
      · rw [show daily_min_prices rows asin n =
            ((daysDesc rows asin).take n).filterMap
              (fun d' => (dayMin rows asin d').map fun m => (d', m)) from rfl]
        rw [length_filterMap_of_total _ _ htotal, hlen]
      · intro p hp'
        obtain ⟨x, hx, hfx⟩ := List.mem_filterMap.mp hp'
        rcases hmx : dayMin rows asin x with _ | mx
        · rw [hmx] at hfx
          exact Option.noConfusion hfx
        · rw [hmx] at hfx
          have hpx : (x, mx) = p := Option.some.inj hfx
          rw [← hpx]
          exact hall x hx

/-- Witness for C7 discharging the hypotheses of the membership clause on the
example rows. -/
theorem C7_daily_min_prices_spec_witness :
    (("2024-01-02", (9 : ℚ)) ∈ daily_min_prices histRowsEx "A" 7) ∧
    ((∃ r ∈ histRowsEx, qualifies "A" r = true ∧ r.day = "2024-01-02" ∧
        r.price_gbp = some 9) ∧
     (∀ r ∈ histRowsEx, qualifies "A" r = true → r.day = "2024-01-02" →
        ∀ v, r.price_gbp = some v → (9 : ℚ) ≤ v)) :=
  ⟨by decide,
   C7_daily_min_prices_spec.2.2.2.2.1 histRowsEx "A" 7 "2024-01-02" 9 (by decide)⟩

instance pricedLeIsTotal :
    IsTotal ResultEntry (fun a b => a.price_gbp.getD 0 ≤ b.price_gbp.getD 0) :=
  ⟨fun a b => le_total (a.price_gbp.getD 0) (b.price_gbp.getD 0)⟩

instance pricedLeIsTrans :
    IsTrans ResultEntry (fun a b => a.price_gbp.getD 0 ≤ b.price_gbp.getD 0) :=
  ⟨fun _ _ _ hab hbc => le_trans hab hbc⟩

theorem pricedSorted_mem (results : List ResultEntry) (r : ResultEntry) :
    r ∈ pricedSorted results ↔ r ∈ results ∧ r.price_gbp.isSome = true := by
  unfold pricedSorted
  rw [List.mem_insertionSort, List.mem_filter]

theorem pricedSorted_sorted (results : List ResultEntry) :
    List.Sorted (fun a b : ResultEntry => a.price_gbp.getD 0 ≤ b.price_gbp.getD 0)
      (pricedSorted results) :=
  List.sorted_insertionSort _ _

theorem errorNoPrices_mem_iff (rows : List Row) (wn td : String) (hdays : ℕ)
    (db : String) (results : List ResultEntry) :
    Line.errorNoPrices ∈ buildDigest rows wn td hdays db results ↔
      pricedSorted results = [] := by
  unfold buildDigest
  cases hp : (pricedSorted results).head? with
  | none =>
    have hnil : pricedSorted results = [] := List.head?_eq_none_iff.mp hp
    simp [hnil]
  | some b =>
    have hne : pricedSorted results ≠ [] := by
      intro h
      rw [h] at hp
      exact Option.noConfusion hp
    refine iff_of_false (fun hmem => ?_) hne
    simp only [List.mem_append, List.mem_cons, List.mem_map, List.not_mem_nil,
      ite_eq_iff] at hmem
    simp at hmem

/-- C8: the digest is always produced (non-empty); when at least one product is
priced, the sorted priced list is non-empty, its first entry `b` has a minimal
amount among all priced results, the digest carries the best-deal line naming
`b` and no error line; when no product is priced the digest carries the explicit
error line. -/
theorem C8_digest_best_deal_or_error :
    ∀ (rows : List Row) (wn td : String) (hdays : ℕ) (db : String)
      (results : List ResultEntry),
      buildDigest rows wn td hdays db results ≠ [] ∧
      ((∃ r ∈ results, r.price_gbp.isSome = true) → pricedSorted results ≠ []) ∧
      (∀ (b : ResultEntry) (rest : List ResultEntry),
        pricedSorted results = b :: rest →
        Line.bestDeal b.label b.price_gbp ∈ buildDigest rows wn td hdays db results ∧
        Line.errorNoPrices ∉ buildDigest rows wn td hdays db results ∧
        b ∈ results ∧ b.price_gbp.isSome = true ∧
        (∀ r ∈ results, ∀ v : ℚ, r.price_gbp = some v →
          b.price_gbp.getD 0 ≤ v)) ∧
      ((∀ r ∈ results, r.price_gbp = none) →
        Line.errorNoPrices ∈ buildDigest rows wn td hdays db results) := by
  intro rows wn td hdays db results
  refine ⟨?_, ?_, ?_, ?_⟩
  · intro h
    have : Line.header wn td ∈ buildDigest rows wn td hdays db results := by
      unfold buildDigest
      simp
    rw [h] at this
    exact List.not_mem_nil _ this
  · rintro ⟨r, hr, hsome⟩ hnil
    have : r ∈ pricedSorted results := (pricedSorted_mem results r).mpr ⟨hr, hsome⟩
    rw [hnil] at this
    exact List.not_mem_nil _ this
  · intro b rest hsort
    have hh : (pricedSorted results).head? = some b := by
      rw [hsort]
      rfl
    have hbmem : b ∈ pricedSorted results := by
      rw [hsort]
      exact List.mem_cons_self b rest
    obtain ⟨hbres, hbsome⟩ := (pricedSorted_mem results b).mp hbmem
    refine ⟨?_, ?_, hbres, hbsome, ?_⟩
    · unfold buildDigest
      rw [hh]
      simp
    · rw [errorNoPrices_mem_iff, hsort]
      exact fun h => List.noConfusion h
    · intro r hr v hv
      have hrs : r ∈ pricedSorted results :=
        (pricedSorted_mem results r).mpr ⟨hr, by rw [hv]; rfl⟩
      have hkey : b.price_gbp.getD 0 ≤ r.price_gbp.getD 0 := by
        rw [hsort] at hrs
        rcases List.mem_cons.mp hrs with h | h
        · rw [h]
        · have hp := pricedSorted_sorted results
          rw [hsort] at hp
          exact List.rel_of_sorted_cons hp r h
      rw [hv] at hkey
      exact hkey
  · intro h
    rw [errorNoPrices_mem_iff]
    unfold pricedSorted
    have hfil : results.filter (fun r => r.price_gbp.isSome) = [] := by
      rw [List.filter_eq_nil_iff]
      intro r hr
      rw [h r hr]
      exact Bool.noConfusion
    rw [hfil]
    rfl

/-- Witness for C8: a two-product run with one priced and one failed product
yields a best-deal line naming the priced product and no error line. -/
theorem C8_digest_best_deal_or_error_witness :
    (pricedSorted
        [⟨"A1", "Cheap", "Cheap", some 5, some "£5.00", "lowest_new_offer",
          "u1", "c1", none, none, none⟩,
         ⟨"A2", "Broken", "Broken", none, none, "error", "u2", "c2",
          none, none, some "boom"⟩] =
      (⟨"A1", "Cheap", "Cheap", some 5, some "£5.00", "lowest_new_offer",
        "u1", "c1", none, none, none⟩ : ResultEntry) :: []) ∧
    (Line.bestDeal "Cheap" (some 5) ∈ buildDigest [] "w" "d" 5 "db"
        [⟨"A1", "Cheap", "Cheap", some 5, some "£5.00", "lowest_new_offer",
          "u1", "c1", none, none, none⟩,
         ⟨"A2", "Broken", "Broken", none, none, "error", "u2", "c2",
          none, none, some "boom"⟩] ∧
     Line.errorNoPrices ∉ buildDigest [] "w" "d" 5 "db"
        [⟨"A1", "Cheap", "Cheap", some 5, some "£5.00", "lowest_new_offer",
          "u1", "c1", none, none, none⟩,
         ⟨"A2", "Broken", "Broken", none, none, "error", "u2", "c2",
          none, none, some "boom"⟩]) :=
  ⟨rfl,
   ((C8_digest_best_deal_or_error [] "w" "d" 5 "db"
      [⟨"A1", "Cheap", "Cheap", some 5, some "£5.00", "lowest_new_offer",
        "u1", "c1", none, none, none⟩,
       ⟨"A2", "Broken", "Broken", none, none, "error", "u2", "c2",
        none, none, some "boom"⟩]).2.2.1
      ⟨"A1", "Cheap", "Cheap", some 5, some "£5.00", "lowest_new_offer",
        "u1", "c1", none, none, none⟩ [] rfl).1,
   ((C8_digest_best_deal_or_error [] "w" "d" 5 "db"
      [⟨"A1", "Cheap", "Cheap", some 5, some "£5.00", "lowest_new_offer",
        "u1", "c1", none, none, none⟩,
       ⟨"A2", "Broken", "Broken", none, none, "error", "u2", "c2",
        none, none, some "boom"⟩]).2.2.1
      ⟨"A1", "Cheap", "Cheap", some 5, some "£5.00", "lowest_new_offer",
        "u1", "c1", none, none, none⟩ [] rfl).2.1⟩

end AmazonPriceTracker
